import Mathlib

/-
Verification development for the Mapping and Rating Audit Engine
(backend_v2/audit_engine.py).  The Python functions are shallowly
embedded as executable Lean definitions: the external LLM service is an
oracle function, a failed or unparsable call is `Option.none`, and a
successful call returns the parsed array of JSON objects, each object
a record of optional fields (a missing JSON key is `none`).
Floating-point numbers are modelled as rationals.
-/

set_option maxHeartbeats 1000000

namespace AuditV2

/-! ## String utilities

Substring containment, mirroring the Python expression
`'(Stem)' in str(question_num)`, and a check for keys starting with
the text "mapped_", mirroring `key.startswith('mapped_')`. -/

/-- Boolean test that the first character list is an initial segment of the second. -/
def leadsWith : List Char → List Char → Bool
  | [], _ => true
  | _ :: _, [] => false
  | c :: cs, d :: ds => c = d && leadsWith cs ds

/-- Boolean substring search on character lists. -/
def hasSubstr (needle : List Char) : List Char → Bool
  | [] => leadsWith needle []
  | l@(_ :: tl) => leadsWith needle l || hasSubstr needle tl

/-- Python `'(Stem)' in s`. -/
def isStem (s : String) : Bool := hasSubstr "(Stem)".data s.data

/-- Python `key.startswith('mapped_')`. -/
def isMappedKey (k : String) : Bool := leadsWith "mapped_".data k.data

/-- Truthiness of Python `s.strip()`: true iff some character of `s`
is not whitespace. -/
def strippedNonempty (s : String) : Bool := s.data.any (fun c => !c.isWhitespace)

/-! ## Coverage tables

`coverage_counts` is a Python dict `code -> count`, embedded as an
association list built exclusively through `incr` (which mirrors
`coverage_counts[k] = coverage_counts.get(k, 0) + 1`). -/

/-- A `code -> count` table (Python dict). -/
abbrev CovMap := List (String × Nat)

/-- `coverage_counts[k] = coverage_counts.get(k, 0) + 1`. -/
def incr : CovMap → String → CovMap
  | [], k => [(k, 1)]
  | (k0, v) :: tl, k => if k0 = k then (k0, v + 1) :: tl else (k0, v) :: incr tl k

/-- Python `k in coverage_counts`. -/
def covContains (cov : CovMap) (k : String) : Bool := cov.any (fun p => p.1 = k)

/-- Python `coverage_counts.get(k, 0)`. -/
def covCount (cov : CovMap) (k : String) : Nat :=
  match cov.find? (fun p => p.1 = k) with
  | some p => p.2
  | none => 0

/-- Python `sum(coverage_counts.values())`. -/
def sumVals (cov : CovMap) : Nat := (cov.map (fun p => p.2)).sum

/-- Gap computation shared by all runs:
`[key for key in reference_data.keys() if key not in coverage_counts]`. -/
def gapsOf (refKeys : List String) (cov : CovMap) : List String :=
  refKeys.filter (fun k => !(covContains cov k))

/-! ## Batching

`for batch_idx in range(0, len(questions_list), batch_size)` slices the
question list into consecutive chunks of at most `batch_size` items.
The fuel argument keeps the recursion structural (so the definition
reduces in the kernel); with `fuel >= l.length` and `n >= 1` it
computes exactly the Python slicing. -/

def chunksAux (n : Nat) : Nat → List α → List (List α)
  | 0, _ => []
  | _, [] => []
  | fuel + 1, l => l.take n :: chunksAux n fuel (l.drop n)

/-- The batches of size `n` of `l`, in order. -/
def chunksOf (n : Nat) (l : List α) : List (List α) := chunksAux n l.length l

/-! ## Single-dimension batched audit (`run_audit_batched`)

A question row carries the `Question Number` cell (absent cell modelled
as `none`; the code substitutes `f"Q{idx+1}"`) and the synthesized full
question text produced by `_get_full_question_text` (stem text plus MCQ
options). -/

structure AuditRow where
  questionNum : Option String
  text : String
  deriving Repr, DecidableEq

/-- The two structurally different dimension families in the code:
`dimension == 'area_topics'` versus the code-based dimensions. -/
inductive DimKind where
  | areaTopics
  | coded
  deriving Repr, DecidableEq

/-- One well-formed entry of the oracle's `mappings` array in
single-dimension mode.  A missing JSON field is `none`; `questionId`
is the `question_id` the oracle echoes back (never consulted by the
engine). -/
structure Mapping where
  questionId : Option String
  mappedTopic : Option String
  mappedSubtopic : Option String
  mappedId : Option String
  confidence : Option ℚ
  justification : Option String
  deriving Repr, DecidableEq

/-- A single-dimension mapping recommendation as appended to
`recommendations`.  `mappedTopic`/`mappedSubtopic` are present exactly
in the `area_topics` branch and `mappedId` exactly in the coded branch,
mirroring which dict keys the Python code writes. -/
structure Rec where
  questionNum : String
  questionText : String
  recommendedMapping : String
  mappedTopic : Option String
  mappedSubtopic : Option String
  mappedId : Option String
  confidence : ℚ
  justification : String
  deriving Repr, DecidableEq

/-- `row.get('Question Number', f"Q{idx+1}")` followed by `str(...)`. -/
def effQNum (idx : Nat) (r : AuditRow) : String :=
  r.questionNum.getD ("Q" ++ toString (idx + 1))

/-- The filtered `questions_list`: stem rows are skipped, and a row is
kept only when its synthesized text is non-empty after `strip()`. -/
def questionsList (rows : List AuditRow) : List (String × String) :=
  rows.enum.filterMap (fun p =>
    let qn := effQNum p.1 p.2
    if isStem qn then none
    else if strippedNonempty p.2.text then some (qn, p.2.text) else none)

/-- Construction of one recommendation dict from an accepted response
entry (identical in the batch-success and fallback paths). -/
def mkRec (dk : DimKind) (q : String × String) (m : Mapping) : Rec :=
  match dk with
  | .areaTopics =>
    let t := m.mappedTopic.getD ""
    let s := m.mappedSubtopic.getD ""
    { questionNum := q.1, questionText := q.2,
      recommendedMapping := t ++ " / " ++ s,
      mappedTopic := some t, mappedSubtopic := some s, mappedId := none,
      confidence := m.confidence.getD 0, justification := m.justification.getD "" }
  | .coded =>
    let c := m.mappedId.getD ""
    { questionNum := q.1, questionText := q.2,
      recommendedMapping := c,
      mappedTopic := none, mappedSubtopic := none, mappedId := some c,
      confidence := m.confidence.getD 0, justification := m.justification.getD "" }

/-- The coverage key incremented for an accepted entry:
`mapped_topic` for `area_topics`, `mapped_id` otherwise. -/
def covKey (dk : DimKind) (m : Mapping) : String :=
  match dk with
  | .areaTopics => m.mappedTopic.getD ""
  | .coded => m.mappedId.getD ""

/-- Mutable run state: the `recommendations` list and `coverage_counts`. -/
structure AuditState where
  recs : List Rec
  cov : CovMap
  deriving Repr, DecidableEq

/-- Accept one (question, response-entry) pair: append the
recommendation and increment the coverage count under its code -
unconditionally, with no validation against the reference taxonomy. -/
def stepPair (dk : DimKind) (st : AuditState) (p : (String × String) × Mapping) : AuditState :=
  { recs := st.recs ++ [mkRec dk p.1 p.2], cov := incr st.cov (covKey dk p.2) }

/-- The batch-success loop
`for i, mapping in enumerate(mappings): if i < len(batch): ...`:
the k-th response entry is paired with the k-th batch item (positional
alignment), surplus entries are ignored, and trailing unmatched batch
items get nothing. -/
def acceptBatch (dk : DimKind) (st : AuditState) (chunk : List (String × String))
    (ms : List Mapping) : AuditState :=
  (chunk.zip ms).foldl (stepPair dk) st

/-- One per-item fallback call (`_build_mapping_prompt` + `_call_llm`):
on `None` the item is silently dropped, otherwise accepted exactly like
a batch entry. -/
def fallbackItem (dk : DimKind) (fOracle : String × String → Option Mapping)
    (st : AuditState) (q : String × String) : AuditState :=
  match fOracle q with
  | some m => stepPair dk st (q, m)
  | none => st

/-- One iteration of the batch loop: try the batch oracle, and on
exception or JSON-parse failure (`none`) fall back to one-item-at-a-time
calls for this batch only. -/
def processChunk (dk : DimKind) (bOracle : List (String × String) → Option (List Mapping))
    (fOracle : String × String → Option Mapping)
    (st : AuditState) (chunk : List (String × String)) : AuditState :=
  match bOracle chunk with
  | some ms => acceptBatch dk st chunk ms
  | none => chunk.foldl (fallbackItem dk fOracle) st

/-- Result record of `run_audit_batched` (the fields the claims are about). -/
structure AuditResult where
  recommendations : List Rec
  coverage : CovMap
  gaps : List String
  totalQuestions : Nat
  mappedQuestions : Nat
  batchSize : Nat
  deriving Repr, DecidableEq

/-- `run_audit_batched(question_csv, reference_csv, dimension, batch_size)`.
`rows` are the parsed rows of the question file, `refKeys` the keys of
the loaded reference taxonomy, `bOracle` the batched LLM call (`none` on
exception or unparsable JSON) and `fOracle` the single-item call. -/
def runAuditBatched (dk : DimKind) (rows : List AuditRow) (refKeys : List String)
    (bOracle : List (String × String) → Option (List Mapping))
    (fOracle : String × String → Option Mapping) (batchSize : Nat) : AuditResult :=
  let ql := questionsList rows
  let st := (chunksOf batchSize ql).foldl (processChunk dk bOracle fOracle)
    { recs := [], cov := [] }
  { recommendations := st.recs
    coverage := st.cov
    gaps := gapsOf refKeys st.cov
    totalQuestions := rows.length
    mappedQuestions := st.recs.length
    batchSize := batchSize }

/-! ## Multi-dimension batched audit (`run_audit_batched_multi`)

One response entry per question, carrying one sub-result per dimension.
`mapping.get(dim, {})` can yield a JSON object (possibly lacking keys),
or any other JSON value (stringified); a missing `dim` key yields `{}`,
i.e. an object with both keys missing. -/

/-- The value of `mapping.get(dim, {})` for a coded dimension:
`mdict` is a JSON object (missing `code`/`confidence` keys are `none`;
the absent-dimension default `{}` is `mdict none none`), `mraw` is any
non-object value, already stringified. -/
inductive MVal where
  | mdict (code : Option String) (conf : Option ℚ)
  | mraw (s : String)
  deriving Repr, DecidableEq

/-- The nested `mapping.get('area_topics', {})` object. -/
structure AreaDict where
  topic : Option String
  subtopic : Option String
  conf : Option ℚ
  deriving Repr, DecidableEq

/-- One well-formed entry of the `mappings` array in multi-dimension
mode.  `flatTopic`/`flatSubtopic`/`flatConf` are the flat
`area_topics_topic` / `area_topics_subtopic` / `area_topics_confidence`
keys, `nestedArea` the nested `area_topics` object used as their
fallback, and `perDim` gives `mapping.get(dim, {})` for every coded
dimension name. -/
structure MultiMapping where
  questionId : Option String
  justification : Option String
  flatTopic : Option String
  flatSubtopic : Option String
  flatConf : Option ℚ
  nestedArea : Option AreaDict
  perDim : String → MVal

/-- Effective topic for the `area_topics` dimension:
`mapping.get('area_topics_topic', mapping.get('area_topics', {}).get('topic', ''))`. -/
def areaTopicOf (m : MultiMapping) : String :=
  m.flatTopic.getD ((m.nestedArea.map (fun d => d.topic.getD "")).getD "")

/-- Effective subtopic for the `area_topics` dimension. -/
def areaSubtopicOf (m : MultiMapping) : String :=
  m.flatSubtopic.getD ((m.nestedArea.map (fun d => d.subtopic.getD "")).getD "")

/-- Effective confidence for the `area_topics` dimension before Python
truthiness is applied; the missing-key default is 0.85. -/
def areaConfOf (m : MultiMapping) : ℚ :=
  m.flatConf.getD ((m.nestedArea.map (fun d => d.conf.getD (85 / 100))).getD (85 / 100))

/-- Code extracted from `mapping.get(dim, {})` for a coded dimension:
`dim_data.get('code', '')` for an object, `str(dim_data) if dim_data
else ''` otherwise. -/
def mvalCode : MVal → String
  | .mdict c _ => c.getD ""
  | .mraw s => if s = "" then "" else s

/-- Confidence extracted from `mapping.get(dim, {})` for a coded
dimension: `dim_data.get('confidence', 0.85)` for an object, `0.85`
otherwise. -/
def mvalConf : MVal → ℚ
  | .mdict _ c => c.getD (85 / 100)
  | .mraw _ => 85 / 100

/-- `float(conf) if conf else 0.85`: Python float truthiness turns even
an explicit 0.0 into the 0.85 default. -/
def effConf (q : ℚ) : ℚ := if q = 0 then 85 / 100 else q

/-- The code recorded for dimension `dim` of one accepted entry: topic
for `area_topics`, `code` for coded dimensions. -/
def multiDimCode (dim : String) (m : MultiMapping) : String :=
  if dim = "area_topics" then areaTopicOf m else mvalCode (m.perDim dim)

/-- The confidence appended to `confidences` for dimension `dim`. -/
def multiDimConf (dim : String) (m : MultiMapping) : ℚ :=
  if dim = "area_topics" then effConf (areaConfOf m) else effConf (mvalConf (m.perDim dim))

/-- A multi-dimension recommendation.  `perDimCode` records, per
dimension name, the code the Python code stored under
`rec[f'mapped_{dim}']` (or the topic under `rec['mapped_topic']` /
`rec[f'mapped_{dim}_topic']` for `area_topics`); a dimension absent
from this association list had no such key written. -/
structure MultiRec where
  questionNum : String
  questionText : String
  justification : String
  perDimCode : List (String × String)
  mappedTopic : Option String
  mappedSubtopic : Option String
  confidence : ℚ
  recommendedMapping : String
  deriving Repr, DecidableEq

/-- The code recorded in a multi-dimension recommendation for `dim`
(empty when no `mapped_{dim}` key was written). -/
def recCodeFor (r : MultiRec) (dim : String) : String :=
  match r.perDimCode.find? (fun p => p.1 = dim) with
  | some p => p.2
  | none => ""

/-- Mutable state of a multi-dimension run: the `recommendations` list
and the per-dimension `coverage_counts` dicts. -/
structure MultiState where
  recs : List MultiRec
  cov : String → CovMap

/-- `if code: coverage_counts[dim][code] += 1` for one dimension. -/
def updCov (c : String → CovMap) (dim : String) (k : String) : String → CovMap :=
  if k = "" then c else fun d => if d = dim then incr (c dim) k else c d

/-- `display_parts`: the non-empty codes, in dimension order, joined by
`' | '` for `recommended_mapping`. -/
def displayParts (dims : List String) (m : MultiMapping) : List String :=
  (dims.map (fun d => multiDimCode d m)).filter (fun c => c ≠ "")

/-- The recommendation dict built for one accepted multi-dimension
entry: per-dimension codes, topic/subtopic for `area_topics`, the
average of the per-dimension confidences (0.85 when `dims` is empty)
and the aggregate justification. -/
def mkMultiRec (dims : List String) (q : String × String) (m : MultiMapping) : MultiRec :=
  let confs := dims.map (fun d => multiDimConf d m)
  { questionNum := q.1
    questionText := q.2
    justification := m.justification.getD ""
    perDimCode := dims.map (fun d => (d, multiDimCode d m))
    mappedTopic := if dims.contains "area_topics" then some (areaTopicOf m) else none
    mappedSubtopic := if dims.contains "area_topics" then some (areaSubtopicOf m) else none
    confidence := if confs = [] then 85 / 100 else confs.sum / confs.length
    recommendedMapping := String.intercalate " | " (displayParts dims m) }

/-- Accept one (question, entry) pair in the multi-dimension batch
loop: the recommendation is always appended, while each dimension's
coverage count is incremented only when that dimension's code is
non-empty. -/
def multiStepPair (dims : List String) (st : MultiState)
    (p : (String × String) × MultiMapping) : MultiState :=
  { recs := st.recs ++ [mkMultiRec dims p.1 p.2]
    cov := dims.foldl (fun c d => updCov c d (multiDimCode d p.2)) st.cov }

/-- The multi-dimension batch-success loop (same positional alignment
as the single-dimension loop). -/
def multiAcceptBatch (dims : List String) (st : MultiState)
    (chunk : List (String × String)) (ms : List MultiMapping) : MultiState :=
  (chunk.zip ms).foldl (multiStepPair dims) st

/-- The multi-dimension fallback recommendation: the single-item prompt
is issued for the FIRST dimension only, with confidence default 0.85. -/
def mkMultiFallbackRec (d0 : String) (q : String × String) (resp : Mapping) : MultiRec :=
  if d0 = "area_topics" then
    let t := resp.mappedTopic.getD ""
    { questionNum := q.1, questionText := q.2
      justification := resp.justification.getD ""
      perDimCode := [(d0, t)]
      mappedTopic := some t
      mappedSubtopic := some (resp.mappedSubtopic.getD "")
      confidence := resp.confidence.getD (85 / 100)
      recommendedMapping := t }
  else
    let c := resp.mappedId.getD ""
    { questionNum := q.1, questionText := q.2
      justification := resp.justification.getD ""
      perDimCode := [(d0, c)]
      mappedTopic := none, mappedSubtopic := none
      confidence := resp.confidence.getD (85 / 100)
      recommendedMapping := c }

/-- One per-item fallback call of the multi-dimension run (processes
the first dimension only; a `none` response drops the item).  The
Python code would raise on an empty dimension list (`dimensions[0]`);
that branch is unreachable in any meaningful run and is modelled as a
no-op. -/
def multiFallbackItem (dims : List String) (fOracle : String × String → Option Mapping)
    (st : MultiState) (q : String × String) : MultiState :=
  match dims with
  | [] => st
  | d0 :: _ =>
    match fOracle q with
    | some resp =>
      { recs := st.recs ++ [mkMultiFallbackRec d0 q resp]
        cov := updCov st.cov d0 (recCodeFor (mkMultiFallbackRec d0 q resp) d0) }
    | none => st

/-- One iteration of the multi-dimension batch loop. -/
def multiProcessChunk (dims : List String)
    (bOracle : List (String × String) → Option (List MultiMapping))
    (fOracle : String × String → Option Mapping)
    (st : MultiState) (chunk : List (String × String)) : MultiState :=
  match bOracle chunk with
  | some ms => multiAcceptBatch dims st chunk ms
  | none => chunk.foldl (multiFallbackItem dims fOracle) st

/-- Result record of `run_audit_batched_multi`.  `gaps` is the
dimension-keyed dict `{dim: [ref code not in coverage[dim]]}`. -/
structure MultiResult where
  recommendations : List MultiRec
  coverage : String → CovMap
  gaps : List (String × List String)
  totalQuestions : Nat
  mappedQuestions : Nat
  batchSize : Nat

/-- `run_audit_batched_multi(question_csv, reference_csv, dimensions,
batch_size)`; `refMulti dim` gives the reference-code list loaded for
`dim`. -/
def runAuditBatchedMulti (dims : List String) (rows : List AuditRow)
    (refMulti : String → List String)
    (bOracle : List (String × String) → Option (List MultiMapping))
    (fOracle : String × String → Option Mapping) (batchSize : Nat) : MultiResult :=
  let ql := questionsList rows
  let st := (chunksOf batchSize ql).foldl (multiProcessChunk dims bOracle fOracle)
    { recs := [], cov := fun _ => [] }
  { recommendations := st.recs
    coverage := st.cov
    gaps := dims.map (fun d => (d, gapsOf (refMulti d) (st.cov d)))
    totalQuestions := rows.length
    mappedQuestions := st.recs.length
    batchSize := batchSize }

/-! ## Mode B: rating of existing mappings (`rate_existing_mappings`)

The rating loop reads pre-classified rows, batches them with the rating
prompt shape, and positionally aligns the oracle's `ratings` array with
the batch.  Its `except` clause only prints the error: there is no
per-item fallback in Mode B. -/

/-- A row of the pre-mapped question file.  `text` mirrors
`row.get('Question Text', '')` with a missing/NaN cell as `none`;
`mappedDimCell` is the `mapped_<dimension>` cell, `mappedIdCell` the
`mapped_id` cell used as its fallback, and the topic/subtopic cells
serve the `area_topics` branch. -/
structure RateRow where
  questionNum : Option String
  text : Option String
  mappedDimCell : Option String
  mappedIdCell : Option String
  mappedTopicCell : Option String
  mappedSubtopicCell : Option String
  deriving Repr, DecidableEq

/-- The existing classification dict passed along with each question. -/
inductive ExistingMapping where
  | area (topic subtopic : String)
  | coded (id : String)
  deriving Repr, DecidableEq

/-- An item of the rating `questions_list`. -/
structure RateItem where
  qNum : String
  qText : String
  existing : ExistingMapping
  deriving Repr, DecidableEq

/-- The rating `questions_list`: stem rows skipped, rows with a missing
or empty (falsy) `Question Text` skipped - note no `strip()` here,
unlike Mode A. -/
def rateQuestionsList (dk : DimKind) (rows : List RateRow) : List RateItem :=
  rows.enum.filterMap (fun p =>
    let r := p.2
    let qn := r.questionNum.getD ("Q" ++ toString (p.1 + 1))
    if isStem qn then none
    else
      match r.text with
      | none => none
      | some t =>
        if t = "" then none
        else
          some { qNum := qn, qText := t
                 existing :=
                   match dk with
                   | .areaTopics => .area (r.mappedTopicCell.getD "") (r.mappedSubtopicCell.getD "")
                   | .coded => .coded (r.mappedDimCell.getD (r.mappedIdCell.getD "")) })

/-- One well-formed entry of the oracle's `ratings` array (missing JSON
keys are `none`). -/
structure RatingEntry where
  questionId : Option String
  rating : Option String
  agreementScore : Option ℚ
  ratingJustification : Option String
  suggestedTopic : Option String
  suggestedSubtopic : Option String
  suggestedId : Option String
  suggestionConfidence : Option ℚ
  suggestionJustification : Option String
  deriving Repr, DecidableEq

/-- One element of `all_ratings`.  A missing `rating` field defaults to
the string "unknown". -/
structure RatingResult where
  questionNum : String
  questionText : String
  existing : ExistingMapping
  rating : String
  agreementScore : ℚ
  ratingJustification : String
  suggestedTopic : Option String
  suggestedSubtopic : Option String
  suggestedId : Option String
  suggestedMapping : String
  suggestionConfidence : ℚ
  suggestionJustification : String
  deriving Repr, DecidableEq

/-- Construction of one rating result from an accepted response entry. -/
def mkRatingResult (dk : DimKind) (it : RateItem) (e : RatingEntry) : RatingResult :=
  { questionNum := it.qNum
    questionText := it.qText
    existing := it.existing
    rating := e.rating.getD "unknown"
    agreementScore := e.agreementScore.getD 0
    ratingJustification := e.ratingJustification.getD ""
    suggestedTopic := match dk with
      | .areaTopics => some (e.suggestedTopic.getD "")
      | .coded => none
    suggestedSubtopic := match dk with
      | .areaTopics => some (e.suggestedSubtopic.getD "")
      | .coded => none
    suggestedId := match dk with
      | .areaTopics => none
      | .coded => some (e.suggestedId.getD "")
    suggestedMapping := match dk with
      | .areaTopics => e.suggestedTopic.getD "" ++ " / " ++ e.suggestedSubtopic.getD ""
      | .coded => e.suggestedId.getD ""
    suggestionConfidence := e.suggestionConfidence.getD 0
    suggestionJustification := e.suggestionJustification.getD "" }

/-- The rating batch-success loop (positional alignment, same shape as
classification). -/
def acceptRatings (dk : DimKind) (acc : List RatingResult) (chunk : List RateItem)
    (rs : List RatingEntry) : List RatingResult :=
  acc ++ (chunk.zip rs).map (fun p => mkRatingResult dk p.1 p.2)

/-- One iteration of the rating batch loop: on oracle exception or
JSON-parse failure the `except` clause only logs - the whole batch is
dropped with no per-item retry. -/
def rateProcessChunk (dk : DimKind)
    (bOracle : List RateItem → Option (List RatingEntry))
    (acc : List RatingResult) (chunk : List RateItem) : List RatingResult :=
  match bOracle chunk with
  | some rs => acceptRatings dk acc chunk rs
  | none => acc

/-- Number of rating results one batch contributes: `min(len(batch),
len(response))` on success, zero on batch failure. -/
def rateChunkContribution (bOracle : List RateItem → Option (List RatingEntry))
    (c : List RateItem) : Nat :=
  match bOracle c with
  | some rs => min c.length rs.length
  | none => 0

/-- The rating summary dict. -/
structure RateSummary where
  totalRated : Nat
  correct : Nat
  partCorrect : Nat
  incorrect : Nat
  accuracyRate : ℚ
  averageAgreementScore : ℚ
  deriving Repr, DecidableEq

/-- Summary statistics computed over `all_ratings`. -/
def mkSummary (ratings : List RatingResult) : RateSummary :=
  let correct := ratings.countP (fun r => r.rating = "correct")
  { totalRated := ratings.length
    correct := correct
    partCorrect := ratings.countP (fun r => r.rating = "partially_correct")
    incorrect := ratings.countP (fun r => r.rating = "incorrect")
    accuracyRate := if ratings.length = 0 then 0 else (correct : ℚ) / ratings.length
    averageAgreementScore :=
      if ratings.length = 0 then 0
      else (ratings.map (fun r => r.agreementScore)).sum / ratings.length }

/-- A correction recommendation produced from a non-correct rating. -/
structure RateRec where
  questionNum : String
  questionText : String
  currentMapping : ExistingMapping
  recommendedMapping : String
  mappedTopic : String
  mappedSubtopic : String
  mappedId : String
  confidence : ℚ
  justification : String
  rating : String
  agreementScore : ℚ
  deriving Repr, DecidableEq

/-- The output recommendation list: only questions whose rating is not
`correct`. -/
def rateRecsOf (ratings : List RatingResult) : List RateRec :=
  (ratings.filter (fun r => r.rating ≠ "correct")).map (fun r =>
    { questionNum := r.questionNum
      questionText := r.questionText
      currentMapping := r.existing
      recommendedMapping := r.suggestedMapping
      mappedTopic := r.suggestedTopic.getD ""
      mappedSubtopic := r.suggestedSubtopic.getD ""
      mappedId := r.suggestedId.getD ""
      confidence := r.suggestionConfidence
      justification := r.suggestionJustification
      rating := r.rating
      agreementScore := r.agreementScore })

/-- Result record of `rate_existing_mappings`.  Note `totalQuestions`
is `len(all_ratings)`, not the row count of the input file. -/
structure RateResult where
  ratings : List RatingResult
  summary : RateSummary
  recommendations : List RateRec
  totalQuestions : Nat
  deriving Repr, DecidableEq

/-- `rate_existing_mappings(mapped_file, reference_csv, dimension,
batch_size)`. -/
def rateExistingMappings (dk : DimKind) (rows : List RateRow)
    (bOracle : List RateItem → Option (List RatingEntry)) (batchSize : Nat) : RateResult :=
  let ql := rateQuestionsList dk rows
  let allRatings := (chunksOf batchSize ql).foldl (rateProcessChunk dk bOracle) []
  { ratings := allRatings
    summary := mkSummary allRatings
    recommendations := rateRecsOf allRatings
    totalQuestions := allRatings.length }

/-! ## Export applier (`apply_and_export`)

The question dataset is a list of rows; a row maps a column name to its
cell (absent cell is `none`).  For each selected recommendation the
code overwrites, in every row whose `Question Number` cell stringifies
to the recommendation's question number, a fixed list of columns with
values taken from the recommendation alone. -/

/-- A cell value: a string or a number. -/
inductive CellVal where
  | vStr (s : String)
  | vNum (q : ℚ)
  deriving Repr, DecidableEq

/-- A dataframe row: column name to cell. -/
def DfRow : Type := String → Option CellVal

/-- One cell assignment `df.loc[mask, k] = v` restricted to a row. -/
def setCell (k : String) (v : CellVal) (r : DfRow) : DfRow :=
  fun k0 => if k0 = k then some v else r k0

/-- Apply a list of cell writes in order. -/
def applyWrites (L : List (String × CellVal)) (r : DfRow) : DfRow :=
  L.foldl (fun r0 p => setCell p.1 p.2 r0) r

/-- The last value written to column `k` by the write list, if any. -/
def lookupLast (L : List (String × CellVal)) (k : String) : Option CellVal :=
  L.foldl (fun acc p => if p.1 = k then some p.2 else acc) none

/-- `str(cell)` as used by `astype(str)` on the `Question Number`
column (a missing cell stringifies to "nan"). -/
def cellToStr : Option CellVal → String
  | none => "nan"
  | some (.vStr s) => s
  | some (.vNum q) => toString q

/-- A recommendation dict as consumed by `apply_and_export`.
`entries` lists the dict's string-valued items in insertion order
(every `mapped_*` key is string-valued in all producing runs);
`mappedId` is the `mapped_id` item, kept apart because the code
special-cases it; `conf` and `just` are the `confidence` and
`justification` items. -/
structure ApplyRec where
  questionNum : String
  entries : List (String × String)
  mappedId : Option String
  conf : Option ℚ
  just : Option String

/-- The dimension name whose `mapped_<dim>` column receives a truthy
`mapped_id` value: the run's dimension when truthy (unless
`area_topics`), else the first dimension of the multi-dimension list
when that list is present and non-empty (unless `area_topics`),
else nothing. -/
def mappedIdTarget (dimension : String) (dims : Option (List String)) : Option String :=
  if dimension ≠ "" then
    if dimension ≠ "area_topics" then some dimension else none
  else
    match dims with
    | some (d0 :: _) => if d0 ≠ "area_topics" then some d0 else none
    | _ => none

/-- The writes produced by the `mapped_id` special case: a truthy
`mapped_id` value is redirected to the `mapped_<dim>` column of the
target dimension. -/
def mappedIdWrites (dimension : String) (dims : Option (List String))
    (r : ApplyRec) : List (String × CellVal) :=
  match r.mappedId with
  | some v =>
    if v ≠ "" then
      match mappedIdTarget dimension dims with
      | some dname => [("mapped_" ++ dname, .vStr v)]
      | none => []
    else []
  | none => []

/-- All cell writes one selected recommendation performs on a matching
row, in program order: every truthy `mapped_*` item except `mapped_id`,
then the redirected `mapped_id`, then the `area_topics`
backward-compatibility pair (when the dict lacks `mapped_topic`), then
`confidence_score` and `justification`. -/
def writesOf (dimension : String) (dims : Option (List String))
    (r : ApplyRec) : List (String × CellVal) :=
  ((r.entries.filter (fun p => isMappedKey p.1 && p.1 ≠ "mapped_id" && p.2 ≠ "")).map
      (fun p => (p.1, CellVal.vStr p.2)))
  ++ mappedIdWrites dimension dims r
  ++ (if dimension = "area_topics" && !(r.entries.any (fun p => p.1 = "mapped_topic"))
      then [("mapped_topic", CellVal.vStr ""), ("mapped_subtopic", CellVal.vStr "")]
      else [])
  ++ [("confidence_score", CellVal.vNum (r.conf.getD 0)),
      ("justification", CellVal.vStr (r.just.getD ""))]

/-- The row mask `questions_df['Question Number'].astype(str) ==
str(question_num)`, per row. -/
def rowMatches (r : ApplyRec) (row : DfRow) : Bool :=
  cellToStr (row "Question Number") = r.questionNum

/-- Effect of one selected recommendation on one row. -/
def rowUpd (dimension : String) (dims : Option (List String)) (r : ApplyRec)
    (row : DfRow) : DfRow :=
  if rowMatches r row then applyWrites (writesOf dimension dims r) row else row

/-- `[recommendations[idx] for idx in selected_indices if idx <
len(recommendations)]`. -/
def selRecsOf (recs : List ApplyRec) (sel : List Nat) : List ApplyRec :=
  sel.filterMap (fun i => recs[i]?)

/-- The dataset merge performed by `apply_and_export` (before the Excel
write): each selected recommendation overwrites its columns in every
matching row. -/
def applySelected (dimension : String) (dims : Option (List String))
    (recs : List ApplyRec) (sel : List Nat) (df : List DfRow) : List DfRow :=
  (selRecsOf recs sel).foldl (fun d r => d.map (rowUpd dimension dims r)) df

/-- All cell writes the selected recommendations perform on one fixed
row, in program order (only recommendations matching that row's
question number contribute).  Used to characterise the per-row effect
of `applySelected`. -/
def matchedWrites (dimension : String) (dims : Option (List String))
    (l : List ApplyRec) (row : DfRow) : List (String × CellVal) :=
  l.flatMap (fun r => if rowMatches r row then writesOf dimension dims r else [])

/-! ## Concrete inputs for witnesses and counterexamples -/

/-- A default well-formed single-dimension response entry. -/
def mapC1 : Mapping :=
  { questionId := none, mappedTopic := none, mappedSubtopic := none,
    mappedId := some "C1", confidence := some (9 / 10), justification := some "fits" }

/-- A response entry with an empty mapped code and no confidence. -/
def mapEmpty : Mapping :=
  { questionId := none, mappedTopic := none, mappedSubtopic := none,
    mappedId := none, confidence := none, justification := none }

/-- Three plain question rows. -/
def rowsW : List AuditRow :=
  [{ questionNum := some "Q1", text := "What is X" },
   { questionNum := some "Q2 (Stem)", text := "Context only" },
   { questionNum := some "Q3", text := "What is Y" }]

/-- One plain question row. -/
def rows1 : List AuditRow := [{ questionNum := some "Q1", text := "What is X" }]

/-- Batch oracle answering every item with `mapC1`. -/
def oracleAllC1 : List (String × String) → Option (List Mapping) :=
  fun chunk => some (chunk.map (fun _ => mapC1))

/-- Batch oracle answering every item with the empty-code entry. -/
def oracleAllEmpty : List (String × String) → Option (List Mapping) :=
  fun chunk => some (chunk.map (fun _ => mapEmpty))

/-- Single-item oracle that always fails. -/
def fOracleNone : String × String → Option Mapping := fun _ => none

/-- A multi-dimension response entry whose `competency` sub-object has
an empty code and no confidence field. -/
def mmEmptyCode : MultiMapping :=
  { questionId := none, justification := none, flatTopic := none,
    flatSubtopic := none, flatConf := none, nestedArea := none,
    perDim := fun d => if d = "competency" then .mdict (some "") none else .mdict none none }

/-- Multi-dimension batch oracle answering every item with `mmEmptyCode`. -/
def mOracleEmptyCode : List (String × String) → Option (List MultiMapping) :=
  fun chunk => some (chunk.map (fun _ => mmEmptyCode))

/-- One pre-mapped row for rating runs. -/
def rateRows1 : List RateRow :=
  [{ questionNum := some "Q1", text := some "What is X",
     mappedDimCell := some "C1", mappedIdCell := none,
     mappedTopicCell := none, mappedSubtopicCell := none }]

/-- Rating batch oracle returning one entry with no `rating` field. -/
def rOracleNoRating : List RateItem → Option (List RatingEntry) :=
  fun chunk => some (chunk.map (fun _ =>
    { questionId := none, rating := none, agreementScore := none,
      ratingJustification := none, suggestedTopic := none, suggestedSubtopic := none,
      suggestedId := none, suggestionConfidence := none, suggestionJustification := none }))

/-- Rating batch oracle that always fails (exception or unparsable JSON). -/
def rOracleFail : List RateItem → Option (List RatingEntry) := fun _ => none

/-- Rating batch oracle rating every item "correct". -/
def rOracleCorrect : List RateItem → Option (List RatingEntry) :=
  fun chunk => some (chunk.map (fun _ =>
    { questionId := none, rating := some "correct", agreementScore := some 1,
      ratingJustification := none, suggestedTopic := none, suggestedSubtopic := none,
      suggestedId := none, suggestionConfidence := none, suggestionJustification := none }))

/-! ## General lemmas -/

theorem foldlPreserve {β α : Type _} {P : β → Prop} {f : β → α → β}
    (h : ∀ b a, P b → P (f b a)) : ∀ (l : List α) (b : β), P b → P (l.foldl f b) := by
  intro l
  induction l with
  | nil => intro b hb; exact hb
  | cons a tl ih => intro b hb; exact ih (f b a) (h b a hb)

theorem sumVals_incr (cov : CovMap) (k : String) :
    sumVals (incr cov k) = sumVals cov + 1 := by
  induction cov with
  | nil => simp [incr, sumVals]
  | cons p tl ih =>
    by_cases h : p.1 = k
    · simp [incr, h, sumVals]; omega
    · simp only [incr]
      rw [if_neg h]
      simp only [sumVals, List.map_cons, List.sum_cons] at *
      omega

theorem allPos_incr (cov : CovMap) (k : String) (h : ∀ p ∈ cov, 0 < p.2) :
    ∀ p ∈ incr cov k, 0 < p.2 := by
  induction cov with
  | nil =>
    intro p hp
    simp [incr] at hp
    simp [hp]
  | cons q tl ih =>
    obtain ⟨k0, v⟩ := q
    intro p hp
    have hv : 0 < v := h (k0, v) (by simp)
    have htl : ∀ r ∈ tl, 0 < r.2 := fun r hr => h r (by simp [hr])
    by_cases hq : k0 = k
    · simp only [incr, if_pos hq, List.mem_cons] at hp
      rcases hp with rfl | hp
      · simp
      · exact htl p hp
    · simp only [incr, if_neg hq, List.mem_cons] at hp
      rcases hp with rfl | hp
      · simpa using hv
      · exact ih htl p hp

theorem covCount_zero_of_not_contains (cov : CovMap) (k : String)
    (h : covContains cov k = false) : covCount cov k = 0 := by
  unfold covContains at h
  rw [List.any_eq_false] at h
  have hf : cov.find? (fun p => p.1 = k) = none :=
    List.find?_eq_none.mpr h
  unfold covCount
  rw [hf]

theorem covCount_pos_of_contains (cov : CovMap) (k : String)
    (hpos : ∀ p ∈ cov, 0 < p.2) (h : covContains cov k = true) :
    0 < covCount cov k := by
  unfold covContains at h
  simp only [List.any_eq_true, decide_eq_true_eq] at h
  obtain ⟨p, hp, hk⟩ := h
  have hfind : ∃ q, cov.find? (fun r => r.1 = k) = some q := by
    have : cov.find? (fun r => r.1 = k) ≠ none := by
      intro hnone
      rw [List.find?_eq_none] at hnone
      exact absurd (by simpa using hk) (by simpa using hnone p hp)
    exact Option.ne_none_iff_exists'.mp this
  obtain ⟨q, hq⟩ := hfind
  have hmem : q ∈ cov := List.mem_of_find?_eq_some hq
  unfold covCount
  rw [hq]
  exact hpos q hmem

theorem covCount_zero_iff (cov : CovMap) (k : String) (hpos : ∀ p ∈ cov, 0 < p.2) :
    covCount cov k = 0 ↔ covContains cov k = false := by
  constructor
  · intro h
    by_cases hc : covContains cov k = true
    · have := covCount_pos_of_contains cov k hpos hc
      omega
    · simpa using hc
  · exact covCount_zero_of_not_contains cov k

theorem covCount_incr_self (cov : CovMap) (k : String) :
    covCount (incr cov k) k = covCount cov k + 1 := by
  induction cov with
  | nil => simp [incr, covCount, List.find?]
  | cons p tl ih =>
    by_cases h : p.1 = k
    · simp [incr, h, covCount, List.find?]
    · simp only [incr, if_neg h]
      unfold covCount
      simp only [List.find?]
      have hd : (decide (p.1 = k)) = false := by simp [h]
      rw [hd]
      simp only []
      exact ih

theorem covContains_incr_self (cov : CovMap) (k : String) :
    covContains (incr cov k) k = true := by
  induction cov with
  | nil => simp [incr, covContains]
  | cons p tl ih =>
    by_cases h : p.1 = k
    · simp [incr, h, covContains]
    · simp only [incr, if_neg h, covContains, List.any_cons]
      simp only [covContains] at ih
      simp [ih]

theorem chunksAux_sumLen {α : Type _} (n : Nat) (hn : 1 ≤ n) :
    ∀ (fuel : Nat) (l : List α), l.length ≤ fuel →
      ((chunksAux n fuel l).map List.length).sum = l.length := by
  intro fuel
  induction fuel with
  | zero =>
    intro l hl
    have : l = [] := List.eq_nil_of_length_eq_zero (Nat.le_zero.mp hl)
    subst this
    simp [chunksAux]
  | succ f ih =>
    intro l hl
    cases l with
    | nil => simp [chunksAux]
    | cons a tl =>
      simp only [chunksAux, List.map_cons, List.sum_cons]
      rw [ih ((a :: tl).drop n)
        (by rw [List.length_drop]; simp only [List.length_cons] at hl ⊢; omega)]
      rw [List.length_take, List.length_drop]
      simp only [List.length_cons]
      omega

theorem chunksOf_sumLen {α : Type _} (n : Nat) (hn : 1 ≤ n) (l : List α) :
    ((chunksOf n l).map List.length).sum = l.length :=
  chunksAux_sumLen n hn l.length l (Nat.le_refl _)

/-! ## Lemmas about the single-dimension batched run -/

theorem foldl_stepPair_recs (dk : DimKind) (l : List ((String × String) × Mapping)) :
    ∀ st : AuditState, (l.foldl (stepPair dk) st).recs
      = st.recs ++ l.map (fun p => mkRec dk p.1 p.2) := by
  induction l with
  | nil => intro st; simp
  | cons p tl ih =>
    intro st
    simp only [List.foldl_cons, List.map_cons]
    rw [ih]
    simp [stepPair]

theorem acceptBatch_recs (dk : DimKind) (st : AuditState) (chunk : List (String × String))
    (ms : List Mapping) : (acceptBatch dk st chunk ms).recs
      = st.recs ++ (chunk.zip ms).map (fun p => mkRec dk p.1 p.2) :=
  foldl_stepPair_recs dk (chunk.zip ms) st

theorem acceptBatch_recs_len (dk : DimKind) (st : AuditState)
    (chunk : List (String × String)) (ms : List Mapping) :
    (acceptBatch dk st chunk ms).recs.length
      = st.recs.length + min chunk.length ms.length := by
  rw [acceptBatch_recs]
  simp [List.length_zip]

theorem processChunk_recs_len_exact (dk : DimKind)
    (bOracle : List (String × String) → Option (List Mapping))
    (fOracle : String × String → Option Mapping)
    (st : AuditState) (chunk : List (String × String))
    (ms : List Mapping) (h : bOracle chunk = some ms) (hlen : ms.length = chunk.length) :
    (processChunk dk bOracle fOracle st chunk).recs.length
      = st.recs.length + chunk.length := by
  unfold processChunk
  rw [h]
  rw [acceptBatch_recs_len]
  omega

theorem foldl_processChunk_recs_len_exact (dk : DimKind)
    (bOracle : List (String × String) → Option (List Mapping))
    (fOracle : String × String → Option Mapping)
    (ho : ∀ chunk, ∃ ms, bOracle chunk = some ms ∧ ms.length = chunk.length) :
    ∀ (L : List (List (String × String))) (st : AuditState),
      (L.foldl (processChunk dk bOracle fOracle) st).recs.length
        = st.recs.length + (L.map List.length).sum := by
  intro L
  induction L with
  | nil => intro st; simp
  | cons c tl ih =>
    intro st
    simp only [List.foldl_cons, List.map_cons, List.sum_cons]
    rw [ih]
    obtain ⟨ms, h1, h2⟩ := ho c
    rw [processChunk_recs_len_exact dk bOracle fOracle st c ms h1 h2]
    omega

theorem length_filterMap_eq_length_filter {α β : Type _} (f : α → Option β) (p : α → Bool)
    (h : ∀ a, (f a).isSome = p a) : ∀ l : List α, (l.filterMap f).length = (l.filter p).length := by
  intro l
  induction l with
  | nil => simp
  | cons a tl ih =>
    cases hfa : f a with
    | none =>
      have hpa : p a = false := by rw [← h a, hfa]; rfl
      simp [List.filterMap_cons, List.filter_cons, hfa, hpa, ih]
    | some b =>
      have hpa : p a = true := by rw [← h a, hfa]; rfl
      simp [List.filterMap_cons, List.filter_cons, hfa, hpa, ih]

theorem questionsList_length_eq_filter (rows : List AuditRow) :
    (questionsList rows).length
      = (rows.enum.filter (fun p =>
          !(isStem (effQNum p.1 p.2)) && (strippedNonempty p.2.text))).length := by
  unfold questionsList
  apply length_filterMap_eq_length_filter
  intro a
  by_cases h1 : isStem (effQNum a.1 a.2)
  · simp [h1]
  · by_cases h2 : strippedNonempty a.2.text
    · simp [h1, h2]
    · simp [h1, h2]

/-! ## Claim C1 -/

/-- C1: for every question file, reference taxonomy and batch size in
[1,10], if the (deterministic) batch oracle answers every batch with
one well-formed mapping entry per input item, then `run_audit_batched`
produces exactly one recommendation per non-stem question row with
non-empty synthesized text. -/
theorem c1_one_recommendation_per_question (dk : DimKind) (rows : List AuditRow)
    (refKeys : List String) (bOracle : List (String × String) → Option (List Mapping))
    (fOracle : String × String → Option Mapping) (bs : Nat)
    (hbs1 : 1 ≤ bs) (_hbs10 : bs ≤ 10)
    (ho : ∀ chunk, ∃ ms, bOracle chunk = some ms ∧ ms.length = chunk.length) :
    (runAuditBatched dk rows refKeys bOracle fOracle bs).recommendations.length
      = (rows.enum.filter (fun p =>
          !(isStem (effQNum p.1 p.2)) && (strippedNonempty p.2.text))).length := by
  show ((chunksOf bs (questionsList rows)).foldl (processChunk dk bOracle fOracle)
      { recs := [], cov := [] }).recs.length = _
  rw [foldl_processChunk_recs_len_exact dk bOracle fOracle ho]
  rw [chunksOf_sumLen bs hbs1]
  simpa using questionsList_length_eq_filter rows

/-- Witness for C1: three rows (one of them a stem row), batch size 2,
an oracle answering every item; exactly the 2 non-stem rows produce
recommendations. -/
theorem c1_one_recommendation_per_question_witness :
    (runAuditBatched .coded rowsW ["C1"] oracleAllC1 fOracleNone 2).recommendations.length = 2 := by
  have h := c1_one_recommendation_per_question .coded rowsW ["C1"] oracleAllC1 fOracleNone 2
    (by decide) (by decide)
    (fun chunk => ⟨chunk.map (fun _ => mapC1), rfl, by simp⟩)
  rw [h]
  decide

/-! ## Claim C2: coverage totals -/

theorem stepPair_sum_inv (dk : DimKind) (st : AuditState)
    (p : (String × String) × Mapping) (h : sumVals st.cov = st.recs.length) :
    sumVals (stepPair dk st p).cov = (stepPair dk st p).recs.length := by
  simp [stepPair, sumVals_incr, h]

theorem fallbackItem_sum_inv (dk : DimKind) (fOracle : String × String → Option Mapping)
    (st : AuditState) (q : String × String) (h : sumVals st.cov = st.recs.length) :
    sumVals (fallbackItem dk fOracle st q).cov = (fallbackItem dk fOracle st q).recs.length := by
  unfold fallbackItem
  cases fOracle q with
  | some m => exact stepPair_sum_inv dk st (q, m) h
  | none => exact h

theorem processChunk_sum_inv (dk : DimKind)
    (bOracle : List (String × String) → Option (List Mapping))
    (fOracle : String × String → Option Mapping)
    (st : AuditState) (chunk : List (String × String))
    (h : sumVals st.cov = st.recs.length) :
    sumVals (processChunk dk bOracle fOracle st chunk).cov
      = (processChunk dk bOracle fOracle st chunk).recs.length := by
  unfold processChunk
  cases bOracle chunk with
  | some ms =>
    exact foldlPreserve (P := fun s => sumVals s.cov = s.recs.length)
      (fun b a hb => stepPair_sum_inv dk b a hb) (chunk.zip ms) st h
  | none =>
    exact foldlPreserve (P := fun s => sumVals s.cov = s.recs.length)
      (fun b a hb => fallbackItem_sum_inv dk fOracle b a hb) chunk st h

/-- Single-dimension half of C2: in `run_audit_batched` (batch and
fallback paths alike) the coverage counts sum to the number of
recommendations, with no side condition - every accepted entry
increments exactly one count, even for an empty code. -/
theorem runAuditBatched_sum_coverage (dk : DimKind) (rows : List AuditRow)
    (refKeys : List String) (bOracle : List (String × String) → Option (List Mapping))
    (fOracle : String × String → Option Mapping) (bs : Nat) :
    sumVals (runAuditBatched dk rows refKeys bOracle fOracle bs).coverage
      = (runAuditBatched dk rows refKeys bOracle fOracle bs).recommendations.length := by
  show sumVals ((chunksOf bs (questionsList rows)).foldl (processChunk dk bOracle fOracle)
      { recs := [], cov := [] }).cov = _
  exact foldlPreserve (P := fun s => sumVals s.cov = s.recs.length)
    (fun b a hb => processChunk_sum_inv dk bOracle fOracle b a hb)
    (chunksOf bs (questionsList rows)) { recs := [], cov := [] } rfl

/-! Multi-dimension coverage invariant.  The per-dimension coverage sum
counts only recommendations whose recorded code for that dimension is
non-empty, because the increment is guarded by `if code:` while the
recommendation is appended unconditionally. -/

/-- Number of recommendations whose recorded code for `d` is non-empty. -/
def countNonemptyCode (d : String) (recs : List MultiRec) : Nat :=
  (recs.filter (fun r => recCodeFor r d != "")).length

theorem updCov_other (c : String → CovMap) (dim k d : String) (hd : d ≠ dim) :
    updCov c dim k d = c d := by
  unfold updCov
  by_cases hk : k = ""
  · simp [hk]
  · simp [hk, hd]

theorem updCov_self_sum (c : String → CovMap) (dim k : String) :
    sumVals (updCov c dim k dim) = sumVals (c dim) + (if k = "" then 0 else 1) := by
  unfold updCov
  by_cases hk : k = ""
  · simp [hk]
  · simp [hk, sumVals_incr]

theorem foldl_updCov_not_mem (f : String → String) (l : List String)
    (d : String) (hd : d ∉ l) :
    ∀ c : String → CovMap, (l.foldl (fun c0 d0 => updCov c0 d0 (f d0)) c) d = c d := by
  induction l with
  | nil => intro c; rfl
  | cons d0 tl ih =>
    intro c
    have hd0 : d ≠ d0 := fun h => hd (h ▸ List.mem_cons_self d0 tl)
    have htl : d ∉ tl := fun h => hd (List.mem_cons_of_mem d0 h)
    simp only [List.foldl_cons]
    rw [ih htl]
    exact updCov_other c d0 (f d0) d hd0

theorem foldl_updCov_mem_sum (f : String → String) (l : List String)
    (hl : l.Nodup) (d : String) (hd : d ∈ l) :
    ∀ c : String → CovMap,
      sumVals ((l.foldl (fun c0 d0 => updCov c0 d0 (f d0)) c) d)
        = sumVals (c d) + (if f d = "" then 0 else 1) := by
  induction l with
  | nil => exact absurd hd (List.not_mem_nil d)
  | cons d0 tl ih =>
    intro c
    simp only [List.foldl_cons]
    rcases List.mem_cons.mp hd with rfl | hdtl
    · have hnot : d ∉ tl := (List.nodup_cons.mp hl).1
      rw [foldl_updCov_not_mem f tl d hnot]
      exact updCov_self_sum c d (f d)
    · have hne : d ≠ d0 := by
        intro h
        exact (List.nodup_cons.mp hl).1 (h ▸ hdtl)
      rw [ih (List.nodup_cons.mp hl).2 hdtl]
      rw [updCov_other c d0 (f d0) d hne]

theorem recCodeFor_mkMultiRec (dims : List String) (q : String × String)
    (m : MultiMapping) (d : String) (hd : d ∈ dims) :
    recCodeFor (mkMultiRec dims q m) d = multiDimCode d m := by
  unfold recCodeFor mkMultiRec
  simp only []
  induction dims with
  | nil => exact absurd hd (List.not_mem_nil d)
  | cons d0 tl ih =>
    by_cases h0 : d0 = d
    · subst h0
      simp [List.find?]
    · simp only [List.map_cons, List.find?]
      have : (decide (d0 = d)) = false := by simp [h0]
      rw [this]
      exact ih (List.mem_cons.mp hd |>.resolve_left (fun h => h0 h.symm))

theorem countNonemptyCode_append_one (d : String) (recs : List MultiRec) (r : MultiRec) :
    countNonemptyCode d (recs ++ [r])
      = countNonemptyCode d recs + (if recCodeFor r d = "" then 0 else 1) := by
  unfold countNonemptyCode
  rw [List.filter_append]
  by_cases h : recCodeFor r d = ""
  · simp [h]
  · simp [h]

/-- The multi-dimension per-run invariant. -/
def MultiInv (dims : List String) (st : MultiState) : Prop :=
  ∀ d ∈ dims, sumVals (st.cov d) = countNonemptyCode d st.recs

theorem multiStepPair_inv (dims : List String) (hnd : dims.Nodup) (st : MultiState)
    (p : (String × String) × MultiMapping) (h : MultiInv dims st) :
    MultiInv dims (multiStepPair dims st p) := by
  intro d hd
  unfold multiStepPair
  simp only []
  rw [foldl_updCov_mem_sum (fun d0 => multiDimCode d0 p.2) dims hnd d hd]
  rw [countNonemptyCode_append_one]
  rw [recCodeFor_mkMultiRec dims p.1 p.2 d hd]
  rw [h d hd]

theorem recCodeFor_mkMultiFallbackRec (d0 : String) (q : String × String)
    (resp : Mapping) (d : String) (h : d0 ≠ d) :
    recCodeFor (mkMultiFallbackRec d0 q resp) d = "" := by
  unfold recCodeFor mkMultiFallbackRec
  by_cases ha : d0 = "area_topics"
  · rw [if_pos ha, List.find?_cons_of_neg _ (by simp [h])]
    rfl
  · rw [if_neg ha, List.find?_cons_of_neg _ (by simp [h])]
    rfl

theorem multiFallbackItem_inv (dims : List String)
    (fOracle : String × String → Option Mapping) (st : MultiState)
    (q : String × String) (h : MultiInv dims st) :
    MultiInv dims (multiFallbackItem dims fOracle st q) := by
  intro d hd
  unfold multiFallbackItem
  cases dims with
  | nil => exact absurd hd (List.not_mem_nil d)
  | cons d0 tl =>
    cases hf : fOracle q with
    | none => exact h d hd
    | some resp =>
      simp only []
      rw [countNonemptyCode_append_one]
      by_cases hdd : d = d0
      · subst hdd
        rw [updCov_self_sum, h d hd]
      · rw [updCov_other st.cov d0 _ d hdd]
        rw [recCodeFor_mkMultiFallbackRec d0 q resp d (fun hc => hdd hc.symm)]
        simp [h d hd]

theorem multiProcessChunk_inv (dims : List String) (hnd : dims.Nodup)
    (bOracle : List (String × String) → Option (List MultiMapping))
    (fOracle : String × String → Option Mapping)
    (st : MultiState) (chunk : List (String × String)) (h : MultiInv dims st) :
    MultiInv dims (multiProcessChunk dims bOracle fOracle st chunk) := by
  unfold multiProcessChunk
  cases bOracle chunk with
  | some ms =>
    exact foldlPreserve (P := MultiInv dims)
      (fun b a hb => multiStepPair_inv dims hnd b a hb) (chunk.zip ms) st h
  | none =>
    exact foldlPreserve (P := MultiInv dims)
      (fun b a hb => multiFallbackItem_inv dims fOracle b a hb) chunk st h

theorem runAuditBatchedMulti_sum_coverage (dims : List String) (hnd : dims.Nodup)
    (rows : List AuditRow) (refMulti : String → List String)
    (bOracle : List (String × String) → Option (List MultiMapping))
    (fOracle : String × String → Option Mapping) (bs : Nat)
    (d : String) (hd : d ∈ dims) :
    sumVals ((runAuditBatchedMulti dims rows refMulti bOracle fOracle bs).coverage d)
      = countNonemptyCode d
          (runAuditBatchedMulti dims rows refMulti bOracle fOracle bs).recommendations := by
  have h0 : MultiInv dims { recs := [], cov := fun _ => [] } := by
    intro d0 _
    simp [sumVals, countNonemptyCode]
  exact foldlPreserve (P := MultiInv dims)
    (fun b a hb => multiProcessChunk_inv dims hnd bOracle fOracle b a hb)
    (chunksOf bs (questionsList rows)) { recs := [], cov := fun _ => [] } h0 d hd

/-- C2 (amended): in every single-dimension run (batch or fallback
path) the coverage counts for the run's dimension sum to the number of
recommendations; in a multi-dimension run over distinct dimensions,
each dimension's coverage counts sum to the number of recommendations
whose recorded code for that dimension is NON-EMPTY (the increment is
guarded by `if code:`, the append is not), which can be strictly fewer
than all recommendations. -/
theorem c2_coverage_totals :
    (∀ (dk : DimKind) (rows : List AuditRow) (refKeys : List String)
        (bOracle : List (String × String) → Option (List Mapping))
        (fOracle : String × String → Option Mapping) (bs : Nat),
      sumVals (runAuditBatched dk rows refKeys bOracle fOracle bs).coverage
        = (runAuditBatched dk rows refKeys bOracle fOracle bs).recommendations.length)
    ∧ (∀ (dims : List String) (rows : List AuditRow) (refMulti : String → List String)
        (bOracle : List (String × String) → Option (List MultiMapping))
        (fOracle : String × String → Option Mapping) (bs : Nat),
      dims.Nodup → ∀ d ∈ dims,
      sumVals ((runAuditBatchedMulti dims rows refMulti bOracle fOracle bs).coverage d)
        = countNonemptyCode d
            (runAuditBatchedMulti dims rows refMulti bOracle fOracle bs).recommendations) :=
  ⟨fun dk rows refKeys bo fo bs => runAuditBatched_sum_coverage dk rows refKeys bo fo bs,
   fun dims rows refMulti bo fo bs hnd d hd =>
     runAuditBatchedMulti_sum_coverage dims hnd rows refMulti bo fo bs d hd⟩

/-- Witness for C2 at a concrete multi-dimension run. -/
theorem c2_coverage_totals_witness :
    sumVals ((runAuditBatchedMulti ["competency"] rows1 (fun _ => ["C1"])
        mOracleEmptyCode fOracleNone 5).coverage "competency")
      = countNonemptyCode "competency"
          (runAuditBatchedMulti ["competency"] rows1 (fun _ => ["C1"])
            mOracleEmptyCode fOracleNone 5).recommendations :=
  c2_coverage_totals.2 ["competency"] rows1 (fun _ => ["C1"])
    mOracleEmptyCode fOracleNone 5 (by decide) "competency" (by decide)

/-- Counterexample to C2 as stated: a multi-dimension run in which the
oracle's entry carries an empty `code` for `competency`.  One
recommendation is produced, but the `competency` coverage table is
empty, so the coverage sum (0) differs from the number of
recommendations (1). -/
theorem c2_counterexample :
    (runAuditBatchedMulti ["competency"] rows1 (fun _ => ["C1"])
        mOracleEmptyCode fOracleNone 5).recommendations.length = 1
    ∧ sumVals ((runAuditBatchedMulti ["competency"] rows1 (fun _ => ["C1"])
        mOracleEmptyCode fOracleNone 5).coverage "competency") = 0 := by
  constructor
  · decide
  · decide

/-! ## Claim C3: rating summary -/

theorem countP_ratings_le (l : List RatingResult) :
    l.countP (fun r => r.rating = "correct")
      + l.countP (fun r => r.rating = "partially_correct")
      + l.countP (fun r => r.rating = "incorrect") ≤ l.length := by
  induction l with
  | nil => simp
  | cons r tl ih =>
    simp only [List.countP_cons, List.length_cons]
    by_cases h1 : r.rating = "correct"
    · have h2 : ¬ r.rating = "partially_correct" := by rw [h1]; decide
      have h3 : ¬ r.rating = "incorrect" := by rw [h1]; decide
      simp [h1, h2, h3]
      omega
    · by_cases h2 : r.rating = "partially_correct"
      · have h3 : ¬ r.rating = "incorrect" := by rw [h2]; decide
        simp [h1, h2, h3]
        omega
      · by_cases h3 : r.rating = "incorrect"
        · simp [h1, h2, h3]
          omega
        · simp [h1, h2, h3]
          omega

theorem countP_ratings_eq (l : List RatingResult)
    (h : ∀ r ∈ l, r.rating = "correct" ∨ r.rating = "partially_correct"
        ∨ r.rating = "incorrect") :
    l.countP (fun r => r.rating = "correct")
      + l.countP (fun r => r.rating = "partially_correct")
      + l.countP (fun r => r.rating = "incorrect") = l.length := by
  induction l with
  | nil => simp
  | cons r tl ih =>
    have htl := ih (fun s hs => h s (List.mem_cons_of_mem r hs))
    have hr := h r (List.mem_cons_self r tl)
    simp only [List.countP_cons, List.length_cons]
    rcases hr with h1 | h1 | h1
    · have h2 : ¬ r.rating = "partially_correct" := by rw [h1]; decide
      have h3 : ¬ r.rating = "incorrect" := by rw [h1]; decide
      simp [h1, h2, h3]
      omega
    · have h2 : ¬ r.rating = "correct" := by rw [h1]; decide
      have h3 : ¬ r.rating = "incorrect" := by rw [h1]; decide
      simp [h1, h2, h3]
      omega
    · have h2 : ¬ r.rating = "correct" := by rw [h1]; decide
      have h3 : ¬ r.rating = "partially_correct" := by rw [h1]; decide
      simp [h1, h2, h3]
      omega

/-- C3 (amended): in every rating run, `correct + partially_correct +
incorrect <= total_rated`, with equality exactly guaranteed when every
produced rating is one of the three categories (a response entry with a
missing or unexpected `rating` value is stored as "unknown": it counts
toward `total_rated` but toward none of the three buckets);
`accuracy_rate == correct / total_rated` (0 when `total_rated == 0`)
holds unconditionally, and `total_rated` is the number of rating
results produced. -/
theorem c3_rating_summary (dk : DimKind) (rows : List RateRow)
    (bOracle : List RateItem → Option (List RatingEntry)) (bs : Nat) :
    ((rateExistingMappings dk rows bOracle bs).summary.correct
        + (rateExistingMappings dk rows bOracle bs).summary.partCorrect
        + (rateExistingMappings dk rows bOracle bs).summary.incorrect
      ≤ (rateExistingMappings dk rows bOracle bs).summary.totalRated)
    ∧ ((∀ r ∈ (rateExistingMappings dk rows bOracle bs).ratings,
          r.rating = "correct" ∨ r.rating = "partially_correct" ∨ r.rating = "incorrect") →
        (rateExistingMappings dk rows bOracle bs).summary.correct
          + (rateExistingMappings dk rows bOracle bs).summary.partCorrect
          + (rateExistingMappings dk rows bOracle bs).summary.incorrect
        = (rateExistingMappings dk rows bOracle bs).summary.totalRated)
    ∧ ((rateExistingMappings dk rows bOracle bs).summary.accuracyRate
        = (if (rateExistingMappings dk rows bOracle bs).summary.totalRated = 0 then 0
           else ((rateExistingMappings dk rows bOracle bs).summary.correct : ℚ)
                / (rateExistingMappings dk rows bOracle bs).summary.totalRated))
    ∧ (rateExistingMappings dk rows bOracle bs).summary.totalRated
        = (rateExistingMappings dk rows bOracle bs).ratings.length := by
  refine ⟨?_, ?_, ?_, ?_⟩
  · exact countP_ratings_le _
  · intro h
    exact countP_ratings_eq _ h
  · rfl
  · rfl

/-- Witness for C3: a run whose single rating is "correct"; the three
buckets sum to `total_rated`. -/
theorem c3_rating_summary_witness :
    (rateExistingMappings .coded rateRows1 rOracleCorrect 5).summary.correct
      + (rateExistingMappings .coded rateRows1 rOracleCorrect 5).summary.partCorrect
      + (rateExistingMappings .coded rateRows1 rOracleCorrect 5).summary.incorrect
    = (rateExistingMappings .coded rateRows1 rOracleCorrect 5).summary.totalRated :=
  (c3_rating_summary .coded rateRows1 rOracleCorrect 5).2.1 (by decide)

/-- Counterexample to C3 as stated: the oracle answers with an entry
lacking the `rating` field; the engine stores it as "unknown", so
`total_rated = 1` while the three buckets sum to 0. -/
theorem c3_counterexample :
    (rateExistingMappings .coded rateRows1 rOracleNoRating 5).summary.correct
      + (rateExistingMappings .coded rateRows1 rOracleNoRating 5).summary.partCorrect
      + (rateExistingMappings .coded rateRows1 rOracleNoRating 5).summary.incorrect = 0
    ∧ (rateExistingMappings .coded rateRows1 rOracleNoRating 5).summary.totalRated = 1 := by
  constructor
  · decide
  · decide

/-! ## Claim C4: no fallback in the rating workflow -/

theorem foldl_rateProcessChunk_len (dk : DimKind)
    (bOracle : List RateItem → Option (List RatingEntry)) :
    ∀ (L : List (List RateItem)) (acc : List RatingResult),
      (L.foldl (rateProcessChunk dk bOracle) acc).length
        = acc.length + (L.map (rateChunkContribution bOracle)).sum := by
  intro L
  induction L with
  | nil => intro acc; simp
  | cons c tl ih =>
    intro acc
    simp only [List.foldl_cons, List.map_cons, List.sum_cons]
    rw [ih]
    cases hbo : bOracle c with
    | some rs =>
      have h1 : rateChunkContribution bOracle c = min c.length rs.length := by
        unfold rateChunkContribution
        rw [hbo]
      have h2 : (rateProcessChunk dk bOracle acc c).length
          = acc.length + min c.length rs.length := by
        unfold rateProcessChunk
        rw [hbo]
        unfold acceptRatings
        rw [List.length_append, List.length_map, List.length_zip]
      rw [h1, h2]
      omega
    | none =>
      have h1 : rateChunkContribution bOracle c = 0 := by
        unfold rateChunkContribution
        rw [hbo]
      have h2 : (rateProcessChunk dk bOracle acc c).length = acc.length := by
        unfold rateProcessChunk
        rw [hbo]
      rw [h1, h2]
      omega

/-- C4 (amended): Mode B does NOT reuse the classification fallback.
Each rating batch contributes `min(len(batch), len(response))` results
when its oracle call succeeds and ZERO results when it fails (exception
or JSON-parse failure): the failed batch's items are dropped outright,
never re-issued one at a time. -/
theorem c4_no_rating_fallback (dk : DimKind) (rows : List RateRow)
    (bOracle : List RateItem → Option (List RatingEntry)) (bs : Nat) :
    (rateExistingMappings dk rows bOracle bs).ratings.length
      = ((chunksOf bs (rateQuestionsList dk rows)).map
          (rateChunkContribution bOracle)).sum := by
  show ((chunksOf bs (rateQuestionsList dk rows)).foldl (rateProcessChunk dk bOracle) []).length = _
  rw [foldl_rateProcessChunk_len]
  simp

/-- Witness for C4 at a concrete run: with a failing batch oracle the
single batch contributes zero ratings. -/
theorem c4_no_rating_fallback_witness :
    (rateExistingMappings .coded rateRows1 rOracleFail 5).ratings.length
      = ((chunksOf 5 (rateQuestionsList .coded rateRows1)).map
          (rateChunkContribution rOracleFail)).sum :=
  c4_no_rating_fallback .coded rateRows1 rOracleFail 5

/-- Counterexample to C4 as stated: one pre-mapped question enters the
batch (the batch is non-empty), the batch-level oracle call fails, and
the run produces zero ratings - the batch's item is lost even though a
single-item retry (which Mode A performs in this situation) would have
recovered it.  The rating engine takes no single-item oracle at all. -/
theorem c4_counterexample :
    (rateQuestionsList .coded rateRows1).length = 1
    ∧ (rateExistingMappings .coded rateRows1 rOracleFail 5).ratings.length = 0
    ∧ (rateExistingMappings .coded rateRows1 rOracleFail 5).summary.totalRated = 0 := by
  refine ⟨?_, ?_, ?_⟩
  · decide
  · decide
  · decide

/-! ## Claim C5: positional response alignment -/

theorem stepPair_qid (dk : DimKind) (st : AuditState) (q : String × String)
    (m : Mapping) (o : Option String) :
    stepPair dk st (q, { m with questionId := o }) = stepPair dk st (q, m) := by
  cases dk <;> rfl

theorem zip_foldl_stepPair_qid (dk : DimKind) (f : Mapping → Option String) :
    ∀ (chunk : List (String × String)) (ms : List Mapping) (st : AuditState),
      (chunk.zip (ms.map (fun m => { m with questionId := f m }))).foldl (stepPair dk) st
        = (chunk.zip ms).foldl (stepPair dk) st := by
  intro chunk
  induction chunk with
  | nil => intro ms st; rfl
  | cons q ctl ih =>
    intro ms st
    cases ms with
    | nil => rfl
    | cons m mtl =>
      simp only [List.map_cons, List.zip_cons_cons, List.foldl_cons]
      rw [stepPair_qid dk st q m (f m)]
      exact ih mtl _

theorem mkRatingResult_qid (dk : DimKind) (it : RateItem) (e : RatingEntry)
    (o : Option String) :
    mkRatingResult dk it { e with questionId := o } = mkRatingResult dk it e := by
  cases dk <;> rfl

theorem zip_map_mkRatingResult_qid (dk : DimKind) (f : RatingEntry → Option String) :
    ∀ (chunk : List RateItem) (rs : List RatingEntry),
      (chunk.zip (rs.map (fun e => { e with questionId := f e }))).map
          (fun p => mkRatingResult dk p.1 p.2)
        = (chunk.zip rs).map (fun p => mkRatingResult dk p.1 p.2) := by
  intro chunk
  induction chunk with
  | nil => intro rs; rfl
  | cons q ctl ih =>
    intro rs
    cases rs with
    | nil => rfl
    | cons e rtl =>
      simp only [List.map_cons, List.zip_cons_cons]
      rw [mkRatingResult_qid dk q e (f e)]
      rw [ih rtl]

/-- C5: response alignment is positional in both the classification and
the rating loops.  The accepted results pair the k-th response entry
with the k-th batch item, so exactly `min(len(batch), len(response))`
items are produced (trailing batch items beyond a short response get
nothing, surplus response entries are ignored); the engine never reads
the `question_id` a response entry carries (rewriting every entry's
`question_id` arbitrarily changes nothing); and on the success path no
fallback call is consulted for the unmatched trailing items. -/
theorem c5_positional_alignment :
    (∀ (dk : DimKind) (st : AuditState) (chunk : List (String × String))
        (ms : List Mapping),
      (acceptBatch dk st chunk ms).recs
        = st.recs ++ (chunk.zip ms).map (fun p => mkRec dk p.1 p.2))
    ∧ (∀ (dk : DimKind) (st : AuditState) (chunk : List (String × String))
        (ms : List Mapping),
      (acceptBatch dk st chunk ms).recs.length
        = st.recs.length + min chunk.length ms.length)
    ∧ (∀ (dk : DimKind) (f : Mapping → Option String) (chunk : List (String × String))
        (ms : List Mapping) (st : AuditState),
      acceptBatch dk st chunk (ms.map (fun m => { m with questionId := f m }))
        = acceptBatch dk st chunk ms)
    ∧ (∀ (dk : DimKind) (bOracle : List (String × String) → Option (List Mapping))
        (fOracle : String × String → Option Mapping) (st : AuditState)
        (chunk : List (String × String)) (ms : List Mapping),
      bOracle chunk = some ms →
        processChunk dk bOracle fOracle st chunk = acceptBatch dk st chunk ms)
    ∧ (∀ (dk : DimKind) (acc : List RatingResult) (chunk : List RateItem)
        (rs : List RatingEntry),
      acceptRatings dk acc chunk rs
        = acc ++ (chunk.zip rs).map (fun p => mkRatingResult dk p.1 p.2))
    ∧ (∀ (dk : DimKind) (f : RatingEntry → Option String) (chunk : List RateItem)
        (rs : List RatingEntry) (acc : List RatingResult),
      acceptRatings dk acc chunk (rs.map (fun e => { e with questionId := f e }))
        = acceptRatings dk acc chunk rs) := by
  refine ⟨?_, ?_, ?_, ?_, ?_, ?_⟩
  · exact fun dk st chunk ms => acceptBatch_recs dk st chunk ms
  · exact fun dk st chunk ms => acceptBatch_recs_len dk st chunk ms
  · intro dk f chunk ms st
    unfold acceptBatch
    exact zip_foldl_stepPair_qid dk f chunk ms st
  · intro dk bo fo st chunk ms h
    unfold processChunk
    rw [h]
  · intro dk acc chunk rs
    rfl
  · intro dk f chunk rs acc
    unfold acceptRatings
    rw [zip_map_mkRatingResult_qid dk f chunk rs]

/-- Witness for C5: a successful one-item batch is processed through
the positional accept loop with no fallback involvement. -/
theorem c5_positional_alignment_witness :
    processChunk .coded oracleAllC1 fOracleNone { recs := [], cov := [] } [("Q1", "t")]
      = acceptBatch .coded { recs := [], cov := [] } [("Q1", "t")] [mapC1] :=
  c5_positional_alignment.2.2.2.1 .coded oracleAllC1 fOracleNone
    { recs := [], cov := [] } [("Q1", "t")] [mapC1] rfl

/-! ## Claim C6: defaulting of missing per-item fields -/

/-- C6 (amended): a missing justification defaults to the empty string
in every classification mode, and a missing confidence never skips the
item; but the default confidence is 0.0 only in the single-dimension
modes (batch and fallback paths) - in the multi-dimension mode a
missing (or explicitly zero) confidence defaults to 0.85, both
per-dimension in the batch path and in its fallback path. -/
theorem c6_field_defaults :
    (∀ (dk : DimKind) (q : String × String) (m : Mapping), m.confidence = none →
        (mkRec dk q m).confidence = 0)
    ∧ (∀ (dk : DimKind) (q : String × String) (m : Mapping), m.justification = none →
        (mkRec dk q m).justification = "")
    ∧ (∀ (d : String) (m : MultiMapping) (c : Option String), d ≠ "area_topics" →
        m.perDim d = .mdict c none → multiDimConf d m = 85 / 100)
    ∧ (∀ m : MultiMapping, m.flatConf = none → m.nestedArea = none →
        multiDimConf "area_topics" m = 85 / 100)
    ∧ (∀ (dims : List String) (q : String × String) (m : MultiMapping),
        m.justification = none → (mkMultiRec dims q m).justification = "")
    ∧ (∀ (d0 : String) (q : String × String) (resp : Mapping), resp.confidence = none →
        (mkMultiFallbackRec d0 q resp).confidence = 85 / 100) := by
  refine ⟨?_, ?_, ?_, ?_, ?_, ?_⟩
  · intro dk q m h
    cases dk <;> simp [mkRec, h]
  · intro dk q m h
    cases dk <;> simp [mkRec, h]
  · intro d m c hd hper
    unfold multiDimConf
    rw [if_neg hd, hper]
    simp [mvalConf, effConf]
  · intro m h1 h2
    unfold multiDimConf
    rw [if_pos rfl]
    unfold areaConfOf
    rw [h1, h2]
    simp [effConf]
  · intro dims q m h
    simp [mkMultiRec, h]
  · intro d0 q resp h
    unfold mkMultiFallbackRec
    by_cases ha : d0 = "area_topics"
    · simp [ha, h]
    · simp [ha, h]

/-- Witness for C6: the single-dimension default at a concrete entry
with missing confidence. -/
theorem c6_field_defaults_witness :
    (mkRec .coded ("Q1", "t") mapEmpty).confidence = 0 :=
  c6_field_defaults.1 .coded ("Q1", "t") mapEmpty rfl

/-- Counterexample to C6 as stated: in a multi-dimension run an
accepted entry whose `competency` sub-object lacks the confidence field
yields a recommendation with confidence 0.85, not 0.0. -/
theorem c6_counterexample :
    ((runAuditBatchedMulti ["competency"] rows1 (fun _ => ["C1"])
        mOracleEmptyCode fOracleNone 5).recommendations.map (fun r => r.confidence))
      = [85 / 100]
    ∧ ((runAuditBatchedMulti ["competency"] rows1 (fun _ => ["C1"])
        mOracleEmptyCode fOracleNone 5).recommendations.map (fun r => r.confidence))
      ≠ [0] := by
  have h1 : (runAuditBatchedMulti ["competency"] rows1 (fun _ => ["C1"])
      mOracleEmptyCode fOracleNone 5).recommendations
      = [mkMultiRec ["competency"] ("Q1", "What is X") mmEmptyCode] := rfl
  have hc : multiDimConf "competency" mmEmptyCode = 85 / 100 := by
    unfold multiDimConf
    rw [if_neg (by decide : ¬ ("competency" = "area_topics"))]
    have hp : mmEmptyCode.perDim "competency" = .mdict (some "") none := by
      unfold mmEmptyCode
      simp
    rw [hp]
    simp [mvalConf, effConf]
  have h2 : (mkMultiRec ["competency"] ("Q1", "What is X") mmEmptyCode).confidence
      = 85 / 100 := by
    unfold mkMultiRec
    simp only [List.map_cons, List.map_nil, hc]
    norm_num
  constructor
  · rw [h1]
    simp only [List.map_cons, List.map_nil]
    rw [h2]
  · rw [h1]
    simp only [List.map_cons, List.map_nil]
    rw [h2]
    intro h
    simp only [List.cons.injEq, and_true] at h
    norm_num at h

/-! ## Claim C7: gaps as set difference -/

theorem stepPair_allPos (dk : DimKind) (st : AuditState)
    (p : (String × String) × Mapping) (h : ∀ r ∈ st.cov, 0 < r.2) :
    ∀ r ∈ (stepPair dk st p).cov, 0 < r.2 :=
  allPos_incr st.cov (covKey dk p.2) h

theorem processChunk_allPos (dk : DimKind)
    (bOracle : List (String × String) → Option (List Mapping))
    (fOracle : String × String → Option Mapping)
    (st : AuditState) (chunk : List (String × String)) (h : ∀ r ∈ st.cov, 0 < r.2) :
    ∀ r ∈ (processChunk dk bOracle fOracle st chunk).cov, 0 < r.2 := by
  unfold processChunk
  cases bOracle chunk with
  | some ms =>
    exact foldlPreserve (P := fun s => ∀ r ∈ s.cov, 0 < r.2)
      (fun b a hb => stepPair_allPos dk b a hb) (chunk.zip ms) st h
  | none =>
    refine foldlPreserve (P := fun s => ∀ r ∈ s.cov, 0 < r.2) ?_ chunk st h
    intro b a hb
    unfold fallbackItem
    cases fOracle a with
    | some m => exact stepPair_allPos dk b (a, m) hb
    | none => exact hb

theorem runAuditBatched_cov_allPos (dk : DimKind) (rows : List AuditRow)
    (refKeys : List String) (bOracle : List (String × String) → Option (List Mapping))
    (fOracle : String × String → Option Mapping) (bs : Nat) :
    ∀ r ∈ (runAuditBatched dk rows refKeys bOracle fOracle bs).coverage, 0 < r.2 := by
  show ∀ r ∈ ((chunksOf bs (questionsList rows)).foldl (processChunk dk bOracle fOracle)
      { recs := [], cov := [] }).cov, 0 < r.2
  exact foldlPreserve (P := fun s => ∀ r ∈ s.cov, 0 < r.2)
    (fun b a hb => processChunk_allPos dk bOracle fOracle b a hb)
    (chunksOf bs (questionsList rows)) { recs := [], cov := [] } (by simp)

theorem updCov_allPos (c : String → CovMap) (dim k : String)
    (h : ∀ d, ∀ r ∈ c d, 0 < r.2) : ∀ d, ∀ r ∈ updCov c dim k d, 0 < r.2 := by
  intro d
  unfold updCov
  by_cases hk : k = ""
  · simp only [if_pos hk]
    exact h d
  · simp only [if_neg hk]
    by_cases hd : d = dim
    · simp only [if_pos hd]
      exact allPos_incr (c dim) k (h dim)
    · simp only [if_neg hd]
      exact h d

theorem multiProcessChunk_allPos (dims : List String)
    (bOracle : List (String × String) → Option (List MultiMapping))
    (fOracle : String × String → Option Mapping)
    (st : MultiState) (chunk : List (String × String))
    (h : ∀ d, ∀ r ∈ st.cov d, 0 < r.2) :
    ∀ d, ∀ r ∈ (multiProcessChunk dims bOracle fOracle st chunk).cov d, 0 < r.2 := by
  unfold multiProcessChunk
  cases bOracle chunk with
  | some ms =>
    refine foldlPreserve (P := fun s => ∀ d, ∀ r ∈ s.cov d, 0 < r.2) ?_ (chunk.zip ms) st h
    intro b a hb
    unfold multiStepPair
    simp only []
    exact foldlPreserve (P := fun c => ∀ d, ∀ r ∈ c d, 0 < r.2)
      (fun c0 d0 hc0 => updCov_allPos c0 d0 (multiDimCode d0 a.2) hc0) dims b.cov hb
  | none =>
    refine foldlPreserve (P := fun s => ∀ d, ∀ r ∈ s.cov d, 0 < r.2) ?_ chunk st h
    intro b a hb
    unfold multiFallbackItem
    cases dims with
    | nil => exact hb
    | cons d0 tl =>
      cases fOracle a with
      | some resp =>
        exact updCov_allPos b.cov d0 _ hb
      | none => exact hb

theorem runAuditBatchedMulti_cov_allPos (dims : List String) (rows : List AuditRow)
    (refMulti : String → List String)
    (bOracle : List (String × String) → Option (List MultiMapping))
    (fOracle : String × String → Option Mapping) (bs : Nat) :
    ∀ d, ∀ r ∈ (runAuditBatchedMulti dims rows refMulti bOracle fOracle bs).coverage d,
      0 < r.2 := by
  show ∀ d, ∀ r ∈ ((chunksOf bs (questionsList rows)).foldl
      (multiProcessChunk dims bOracle fOracle) { recs := [], cov := fun _ => [] }).cov d, 0 < r.2
  exact foldlPreserve (P := fun s => ∀ d, ∀ r ∈ s.cov d, 0 < r.2)
    (fun b a hb => multiProcessChunk_allPos dims bOracle fOracle b a hb)
    (chunksOf bs (questionsList rows)) { recs := [], cov := fun _ => [] } (by simp)

theorem mem_gapsOf (refKeys : List String) (cov : CovMap) (k : String)
    (hpos : ∀ p ∈ cov, 0 < p.2) :
    k ∈ gapsOf refKeys cov ↔ k ∈ refKeys ∧ covCount cov k = 0 := by
  unfold gapsOf
  rw [List.mem_filter]
  constructor
  · rintro ⟨h1, h2⟩
    refine ⟨h1, ?_⟩
    rw [covCount_zero_iff cov k hpos]
    simpa using h2
  · rintro ⟨h1, h2⟩
    refine ⟨h1, ?_⟩
    rw [covCount_zero_iff cov k hpos] at h2
    simp [h2]

/-- C7: for every run (single- or multi-dimension) and every dimension,
the gap list is exactly the set of reference codes whose coverage count
is zero: `gaps(dim) == reference_codes(dim) - covered codes`.
Consequently a reference code is either a gap or covered, never both -
gaps and covered codes partition the reference code set (every stored
coverage count is positive, so "in the coverage dict" and "positive
count" coincide). -/
theorem c7_gap_partition :
    (∀ (dk : DimKind) (rows : List AuditRow) (refKeys : List String)
        (bOracle : List (String × String) → Option (List Mapping))
        (fOracle : String × String → Option Mapping) (bs : Nat) (k : String),
      k ∈ (runAuditBatched dk rows refKeys bOracle fOracle bs).gaps
        ↔ k ∈ refKeys
          ∧ covCount (runAuditBatched dk rows refKeys bOracle fOracle bs).coverage k = 0)
    ∧ (∀ (dims : List String) (rows : List AuditRow) (refMulti : String → List String)
        (bOracle : List (String × String) → Option (List MultiMapping))
        (fOracle : String × String → Option Mapping) (bs : Nat)
        (d : String) (gl : List String),
      (d, gl) ∈ (runAuditBatchedMulti dims rows refMulti bOracle fOracle bs).gaps →
      ∀ k : String, k ∈ gl ↔ k ∈ refMulti d
        ∧ covCount ((runAuditBatchedMulti dims rows refMulti bOracle fOracle bs).coverage d)
            k = 0) := by
  constructor
  · intro dk rows refKeys bo fo bs k
    exact mem_gapsOf refKeys _ k (runAuditBatched_cov_allPos dk rows refKeys bo fo bs)
  · intro dims rows refMulti bo fo bs d gl hmem k
    have hmap := hmem
    simp only [runAuditBatchedMulti, List.mem_map] at hmap
    obtain ⟨d0, _, heq⟩ := hmap
    have hd0 : d0 = d := congrArg Prod.fst heq
    have hgl : gl = gapsOf (refMulti d)
        (((chunksOf bs (questionsList rows)).foldl (multiProcessChunk dims bo fo)
          { recs := [], cov := fun _ => [] }).cov d) := by
      have := congrArg Prod.snd heq
      simp only at this
      rw [← this, hd0]
    rw [hgl]
    exact mem_gapsOf (refMulti d) _ k
      (runAuditBatchedMulti_cov_allPos dims rows refMulti bo fo bs d)

/-- Witness for C7 at a concrete multi-dimension run with one reference
code and no coverage: the code is a gap. -/
theorem c7_gap_partition_witness :
    ("C1" ∈ (["C1"] : List String) ↔ "C1" ∈ (["C1"] : List String)
      ∧ covCount ((runAuditBatchedMulti ["competency"] rows1 (fun _ => ["C1"])
          mOracleEmptyCode fOracleNone 5).coverage "competency") "C1" = 0) :=
  c7_gap_partition.2 ["competency"] rows1 (fun _ => ["C1"]) mOracleEmptyCode fOracleNone 5
    "competency" ["C1"] (by decide) "C1"

/-! ## Claim C9: total_questions semantics -/

/-- C9: in Mode B the result's `total_questions` equals the number of
rating results actually produced (`len(all_ratings)`, the same value as
`summary.total_rated`), whereas in Mode A (`run_audit_batched`) it
equals the full row count of the question file, stem and empty-text
rows included. -/
theorem c9_total_questions_semantics :
    (∀ (dk : DimKind) (rows : List RateRow)
        (bOracle : List RateItem → Option (List RatingEntry)) (bs : Nat),
      (rateExistingMappings dk rows bOracle bs).totalQuestions
        = (rateExistingMappings dk rows bOracle bs).ratings.length
      ∧ (rateExistingMappings dk rows bOracle bs).totalQuestions
        = (rateExistingMappings dk rows bOracle bs).summary.totalRated)
    ∧ (∀ (dk : DimKind) (rows : List AuditRow) (refKeys : List String)
        (bOracle : List (String × String) → Option (List Mapping))
        (fOracle : String × String → Option Mapping) (bs : Nat),
      (runAuditBatched dk rows refKeys bOracle fOracle bs).totalQuestions = rows.length) :=
  ⟨fun _ _ _ _ => ⟨rfl, rfl⟩, fun _ _ _ _ _ _ => rfl⟩

/-! ## Claim C10: coverage keys are never validated -/

/-- C10: the single-dimension batched run accepts a response entry's
code with no validation against the reference taxonomy: every accepted
entry appends a recommendation and increments the coverage count under
its code - even the empty string (used when `mapped_id`/`mapped_topic`
is absent) - so the coverage dict can contain keys outside the
reference code set; the gap list only ever contains reference codes,
and never a key present in the coverage dict.  The final conjuncts
exhibit a run whose coverage key is the empty string, absent from the
reference set and from the gap list, while the recommendation list
still has one entry. -/
theorem c10_unvalidated_coverage :
    (∀ (dk : DimKind) (st : AuditState) (q : String × String) (m : Mapping),
      (stepPair dk st (q, m)).recs.length = st.recs.length + 1
      ∧ covCount (stepPair dk st (q, m)).cov (covKey dk m)
          = covCount st.cov (covKey dk m) + 1
      ∧ covContains (stepPair dk st (q, m)).cov (covKey dk m) = true)
    ∧ (∀ (refKeys : List String) (cov : CovMap) (k : String),
        k ∈ gapsOf refKeys cov → k ∈ refKeys)
    ∧ (∀ (refKeys : List String) (cov : CovMap) (k : String),
        covContains cov k = true → k ∉ gapsOf refKeys cov)
    ∧ covContains (runAuditBatched .coded rows1 ["C1"] oracleAllEmpty
        fOracleNone 5).coverage "" = true
    ∧ ("" ∉ (["C1"] : List String))
    ∧ (runAuditBatched .coded rows1 ["C1"] oracleAllEmpty
        fOracleNone 5).recommendations.length = 1
    ∧ ("" ∉ (runAuditBatched .coded rows1 ["C1"] oracleAllEmpty fOracleNone 5).gaps) := by
  refine ⟨?_, ?_, ?_, ?_, ?_, ?_, ?_⟩
  · intro dk st q m
    refine ⟨by simp [stepPair], ?_, ?_⟩
    · simp [stepPair, covCount_incr_self]
    · exact covContains_incr_self st.cov (covKey dk m)
  · intro refKeys cov k h
    exact (List.mem_filter.mp h).1
  · intro refKeys cov k h hmem
    have := (List.mem_filter.mp hmem).2
    rw [h] at this
    simp at this
  · decide
  · decide
  · decide
  · decide

/-- Witness for C10: a coverage key (the empty string) is never listed
as a gap. -/
theorem c10_unvalidated_coverage_witness :
    "" ∉ gapsOf ["C1"] [("", 1)] :=
  c10_unvalidated_coverage.2.2.1 ["C1"] [("", 1)] "" (by decide)

/-! ## Claim C8: idempotence of apply_and_export -/

theorem foldl_lookup_aux (k : String) :
    ∀ (L : List (String × CellVal)) (acc : Option CellVal),
      L.foldl (fun a p => if p.1 = k then some p.2 else a) acc
        = (lookupLast L k).elim acc some := by
  intro L
  induction L with
  | nil => intro acc; rfl
  | cons p tl ih =>
    intro acc
    unfold lookupLast
    simp only [List.foldl_cons]
    rw [ih, ih]
    cases hl : lookupLast tl k <;> by_cases h : p.1 = k <;> simp [hl, h]

theorem applyWrites_apply (L : List (String × CellVal)) (r : DfRow) (k : String) :
    applyWrites L r k = (lookupLast L k).elim (r k) some := by
  induction L generalizing r with
  | nil => rfl
  | cons p tl ih =>
    unfold applyWrites at *
    simp only [List.foldl_cons]
    rw [ih (setCell p.1 p.2 r)]
    have hR : lookupLast (p :: tl) k
        = (lookupLast tl k).elim (if p.1 = k then some p.2 else none) some := by
      unfold lookupLast
      simp only [List.foldl_cons]
      exact foldl_lookup_aux k tl (if p.1 = k then some p.2 else none)
    rw [hR]
    cases hl : lookupLast tl k with
    | some v => rfl
    | none =>
      simp only [Option.elim]
      unfold setCell
      by_cases h : p.1 = k
      · rw [if_pos h, if_pos (h ▸ rfl : k = p.1)]
      · rw [if_neg h, if_neg (fun hh : k = p.1 => h hh.symm)]

theorem applyWrites_append (L1 L2 : List (String × CellVal)) (r : DfRow) :
    applyWrites (L1 ++ L2) r = applyWrites L2 (applyWrites L1 r) := by
  unfold applyWrites
  rw [List.foldl_append]

theorem applyWrites_twice (L : List (String × CellVal)) (r : DfRow) :
    applyWrites L (applyWrites L r) = applyWrites L r := by
  funext k
  rw [applyWrites_apply]
  cases hl : lookupLast L k with
  | none => simp only [Option.elim]
  | some v =>
    simp only [Option.elim]
    rw [applyWrites_apply, hl]
    rfl

theorem lookupLast_eq_none (L : List (String × CellVal)) (k : String)
    (h : ∀ p ∈ L, p.1 ≠ k) : lookupLast L k = none := by
  induction L with
  | nil => rfl
  | cons p tl ih =>
    unfold lookupLast
    simp only [List.foldl_cons]
    rw [if_neg (h p (List.mem_cons_self p tl))]
    exact ih (fun q hq => h q (List.mem_cons_of_mem p hq))

theorem applyWrites_preserve (L : List (String × CellVal)) (r : DfRow) (k : String)
    (h : ∀ p ∈ L, p.1 ≠ k) : applyWrites L r k = r k := by
  rw [applyWrites_apply, lookupLast_eq_none L k h]
  rfl

theorem leadsWith_append (l t : List Char) : leadsWith l (l ++ t) = true := by
  induction l with
  | nil => rfl
  | cons c cs ih => simp [leadsWith, ih]

theorem isMappedKey_append (d : String) : isMappedKey ("mapped_" ++ d) = true := by
  unfold isMappedKey
  have hdata : ("mapped_" ++ d).data = "mapped_".data ++ d.data := rfl
  rw [hdata]
  exact leadsWith_append _ _

theorem mappedIdWrites_key (dimension : String) (dims : Option (List String))
    (r : ApplyRec) : ∀ p ∈ mappedIdWrites dimension dims r, isMappedKey p.1 = true := by
  intro p hp
  unfold mappedIdWrites at hp
  split at hp
  · split at hp
    · split at hp
      · rename_i dname _
        simp only [List.mem_singleton] at hp
        rw [hp]
        exact isMappedKey_append dname
      · simp at hp
    · simp at hp
  · simp at hp

theorem writesOf_key_shapes (dimension : String) (dims : Option (List String))
    (r : ApplyRec) :
    ∀ p ∈ writesOf dimension dims r,
      isMappedKey p.1 = true ∨ p.1 = "confidence_score" ∨ p.1 = "justification" := by
  intro p hp
  unfold writesOf at hp
  simp only [List.mem_append] at hp
  rcases hp with ((h | h) | h) | h
  · left
    obtain ⟨q, hq, hpq⟩ := List.mem_map.mp h
    have hfil := List.of_mem_filter hq
    simp only [Bool.and_eq_true] at hfil
    rw [← hpq]
    exact hfil.1.1
  · left
    exact mappedIdWrites_key dimension dims r p h
  · split at h
    · simp only [List.mem_cons, List.not_mem_nil, or_false] at h
      rcases h with rfl | rfl
      · left; decide
      · left; decide
    · simp at h
  · simp only [List.mem_cons, List.not_mem_nil, or_false] at h
    rcases h with rfl | rfl
    · right; left; rfl
    · right; right; rfl

theorem writesOf_keys_ne_qnum (dimension : String) (dims : Option (List String))
    (r : ApplyRec) : ∀ p ∈ writesOf dimension dims r, p.1 ≠ "Question Number" := by
  intro p hp hk
  rcases writesOf_key_shapes dimension dims r p hp with h | h | h
  · rw [hk] at h
    exact absurd h (by decide)
  · rw [hk] at h
    exact absurd h (by decide)
  · rw [hk] at h
    exact absurd h (by decide)

theorem rowUpd_qnum (dimension : String) (dims : Option (List String))
    (r : ApplyRec) (row : DfRow) :
    rowUpd dimension dims r row "Question Number" = row "Question Number" := by
  unfold rowUpd
  split
  · exact applyWrites_preserve _ _ _ (writesOf_keys_ne_qnum dimension dims r)
  · rfl

theorem rowMatches_congr (r : ApplyRec) (row1 row2 : DfRow)
    (h : row1 "Question Number" = row2 "Question Number") :
    rowMatches r row1 = rowMatches r row2 := by
  unfold rowMatches
  rw [h]

theorem foldl_rowUpd_qnum (dimension : String) (dims : Option (List String)) :
    ∀ (l : List ApplyRec) (row : DfRow),
      (l.foldl (fun acc r => rowUpd dimension dims r acc) row) "Question Number"
        = row "Question Number" := by
  intro l
  induction l with
  | nil => intro row; rfl
  | cons r0 tl ih =>
    intro row
    simp only [List.foldl_cons]
    rw [ih (rowUpd dimension dims r0 row)]
    exact rowUpd_qnum dimension dims r0 row

theorem foldl_rowUpd_eq_applyWrites (dimension : String) (dims : Option (List String)) :
    ∀ (l : List ApplyRec) (row r2 : DfRow),
      r2 "Question Number" = row "Question Number" →
      l.foldl (fun acc r => rowUpd dimension dims r acc) r2
        = applyWrites (matchedWrites dimension dims l row) r2 := by
  intro l
  induction l with
  | nil => intro row r2 _; rfl
  | cons r0 tl ih =>
    intro row r2 h
    simp only [List.foldl_cons]
    have hmw : matchedWrites dimension dims (r0 :: tl) row
        = (if rowMatches r0 row then writesOf dimension dims r0 else [])
          ++ matchedWrites dimension dims tl row := by
      unfold matchedWrites
      rw [List.flatMap_cons]
    rw [hmw, applyWrites_append]
    have hmatch : rowMatches r0 r2 = rowMatches r0 row := rowMatches_congr r0 r2 row h
    by_cases hm : rowMatches r0 row
    · have h1 : rowUpd dimension dims r0 r2 = applyWrites (writesOf dimension dims r0) r2 := by
        unfold rowUpd
        rw [hmatch, if_pos hm]
      have h2 : applyWrites (if rowMatches r0 row then writesOf dimension dims r0 else []) r2
          = applyWrites (writesOf dimension dims r0) r2 := by
        rw [if_pos hm]
      rw [h1, h2]
      apply ih row
      rw [applyWrites_preserve _ _ _ (writesOf_keys_ne_qnum dimension dims r0)]
      exact h
    · have h1 : rowUpd dimension dims r0 r2 = r2 := by
        unfold rowUpd
        rw [hmatch, if_neg hm]
      have h2 : applyWrites (if rowMatches r0 row then writesOf dimension dims r0 else []) r2
          = r2 := by
        rw [if_neg hm]
        rfl
      rw [h1, h2]
      exact ih row r2 h

theorem applyList_map_fusion (dimension : String) (dims : Option (List String)) :
    ∀ (l : List ApplyRec) (df : List DfRow),
      l.foldl (fun d r => d.map (rowUpd dimension dims r)) df
        = df.map (fun row => l.foldl (fun acc r => rowUpd dimension dims r acc) row) := by
  intro l
  induction l with
  | nil => intro df; simp
  | cons r0 tl ih =>
    intro df
    simp only [List.foldl_cons]
    rw [ih (df.map (rowUpd dimension dims r0))]
    rw [List.map_map]
    rfl

theorem rowFold_idem (dimension : String) (dims : Option (List String))
    (l : List ApplyRec) (row : DfRow) :
    l.foldl (fun acc r => rowUpd dimension dims r acc)
        (l.foldl (fun acc r => rowUpd dimension dims r acc) row)
      = l.foldl (fun acc r => rowUpd dimension dims r acc) row := by
  have hq : (l.foldl (fun acc r => rowUpd dimension dims r acc) row) "Question Number"
      = row "Question Number" := foldl_rowUpd_qnum dimension dims l row
  rw [foldl_rowUpd_eq_applyWrites dimension dims l row _ hq]
  rw [foldl_rowUpd_eq_applyWrites dimension dims l row row rfl]
  exact applyWrites_twice _ _

/-- C8: `apply_and_export` is idempotent on the question dataset: for
every original dataset, recommendation list, selected index list, and
dimension arguments, applying the same selection twice yields the same
merged dataset as applying it once - each apply overwrites the matched
rows' columns with values taken from the recommendation alone, so a
second pass rewrites identical values. -/
theorem c8_apply_idempotent (dimension : String) (dims : Option (List String))
    (recs : List ApplyRec) (sel : List Nat) (df : List DfRow) :
    applySelected dimension dims recs sel (applySelected dimension dims recs sel df)
      = applySelected dimension dims recs sel df := by
  unfold applySelected
  rw [applyList_map_fusion, applyList_map_fusion, List.map_map]
  have hFF : ((fun row => (selRecsOf recs sel).foldl
        (fun acc r => rowUpd dimension dims r acc) row)
      ∘ (fun row => (selRecsOf recs sel).foldl
        (fun acc r => rowUpd dimension dims r acc) row))
      = (fun row => (selRecsOf recs sel).foldl
        (fun acc r => rowUpd dimension dims r acc) row) :=
    funext (fun row => rowFold_idem dimension dims (selRecsOf recs sel) row)
  rw [hFF]

end AuditV2
